import Mathlib

/-!
Verification development for the FRI-NRG-DN1 splat renderer.

The Rust sources are shallowly embedded as follows:

* `f32` arithmetic is modelled with exact rational (`ℚ`) respectively real
  (`ℝ`) arithmetic; `f32::round` is round-half-away-from-zero and the `as u32`
  / `as u8` casts saturate, as they do in Rust.
* Raw little-endian `f32` fields of the binary splat format are represented by
  their assembled 32-bit little-endian bit patterns (the decoder performs no
  arithmetic on them).
* Fallible operations return `Except`/`Option`; a Rust panic is modelled by a
  dedicated `RenderOutcome.panicked` value.
* The parallel unstable depth sort (`par_sort_unstable_by` with
  `total_cmp(..).reverse()`) is modelled relationally: theorems quantify over
  any permutation of the prepared splats that is sorted by descending
  distance, which is exactly the sort's contract.
-/

namespace NRG

/-- Saturation bound of Rust's `u32` type. -/
def u32_max : ℕ := 4294967295

/-- Embedding of `f32::round` on rationals: round half away from zero. -/
def f32_round (q : ℚ) : ℤ :=
  if q < 0 then -(⌊-q + (1 : ℚ) / 2⌋) else ⌊q + (1 : ℚ) / 2⌋

/-- Embedding of a Rust `f32 as u32` cast applied to an integral value:
the cast saturates to `[0, u32::MAX]`. -/
def int_as_u32 (z : ℤ) : ℕ := min z.toNat u32_max

/-- Embedding of `(expr).round() as u32` on rationals. -/
def f32_round_as_u32 (q : ℚ) : ℕ := int_as_u32 (f32_round q)

/-- Embedding of a Rust `f32 as u8` cast applied to an integral value:
the cast saturates to `[0, 255]`. -/
def int_as_u8 (z : ℤ) : ℕ := min z.toNat 255

/-- Embedding of `(expr).round() as u8` on rationals. -/
def f32_round_as_u8 (q : ℚ) : ℕ := int_as_u8 (f32_round q)

/-- Embedding of `f32::round` on reals (used where the computation involves a
Euclidean norm): round half away from zero. -/
noncomputable def f32_round_real (r : ℝ) : ℤ :=
  if r < 0 then -(⌊-r + (1 : ℝ) / 2⌋) else ⌊r + (1 : ℝ) / 2⌋

/-- Embedding of `(expr).round() as u32` on reals. -/
noncomputable def f32_round_real_as_u32 (r : ℝ) : ℕ := int_as_u32 (f32_round_real r)

/-!
## Binary scene decoder (`src/splat_decoder/mod.rs`)
-/

/-- Decoded form of one 32-byte splat record (`struct Splat`).  The three
`f32` position components and the three `f32` scale components are represented
by their IEEE-754 binary32 bit patterns, assembled little-endian from the four
source bytes each; the decoder performs no arithmetic on them. -/
structure RawSplat where
  position : ℕ × ℕ × ℕ
  scale : ℕ × ℕ × ℕ
  color : ℕ × ℕ × ℕ × ℕ
  rotation : ℚ × ℚ × ℚ × ℚ
  deriving DecidableEq

/-- The 32-bit word assembled little-endian from bytes `i, i+1, i+2, i+3` of a
byte list; this is the bit pattern `Bytes::get_f32_le` reads at offset `i`. -/
def le_word (bytes : List ℕ) (i : ℕ) : ℕ :=
  bytes.getD i 0 + 256 * bytes.getD (i + 1) 0 + 65536 * bytes.getD (i + 2) 0 +
    16777216 * bytes.getD (i + 3) 0

/-- Decoding of one raw rotation byte: `(byte as i32 - 128) as f32 / 128f32`.
Both the subtraction and the division by `128` are exact in `f32`, so the
rational value is the exact `f32` value. -/
def rotation_component (b : ℕ) : ℚ := (((b : ℤ) - 128 : ℤ) : ℚ) / 128

/-- Embedding of `Splat::from_raw_splat_file_data`: a record of any length
other than 32 is rejected; otherwise the fields are read in order
(position, scale, color, rotation). -/
def from_raw_splat_file_data (bytes : List ℕ) : Except String RawSplat :=
  if bytes.length = 32 then
    .ok
      { position := (le_word bytes 0, le_word bytes 4, le_word bytes 8)
        scale := (le_word bytes 12, le_word bytes 16, le_word bytes 20)
        color := (bytes.getD 24 0, bytes.getD 25 0, bytes.getD 26 0, bytes.getD 27 0)
        rotation :=
          (rotation_component (bytes.getD 28 0), rotation_component (bytes.getD 29 0),
            rotation_component (bytes.getD 30 0), rotation_component (bytes.getD 31 0)) }
  else
    .error "Provided Bytes container is NOT 32 BYTES BIG"

/-- Embedding of `Bytes::chunks(32)`: split a byte list into consecutive
chunks of 32 bytes (the final chunk may be shorter if the length is not a
multiple of 32). -/
def chunks_of_32 (bytes : List ℕ) : List (List ℕ) :=
  if h : bytes = [] then []
  else bytes.take 32 :: chunks_of_32 (bytes.drop 32)
termination_by bytes.length
decreasing_by
  simp only [List.length_drop]
  have : 0 < bytes.length := List.length_pos.mpr h
  omega

/-- Sequential parsing of the chunk list.  The source parses chunks in
parallel and (with `REORDER_SPLATS_TO_FILE_ORDER = true`, the configured
value in `main.rs`) sorts the results back to file order, which is
observationally the sequential order-preserving parse; any single parse error
aborts the whole collection. -/
def parse_chunks : List (List ℕ) → Except String (List RawSplat)
  | [] => .ok []
  | c :: rest =>
    match from_raw_splat_file_data c with
    | .error e => .error e
    | .ok s =>
      match parse_chunks rest with
      | .error e => .error e
      | .ok ss => .ok (s :: ss)

/-- Embedding of `Splats::load_from_file` after the (external) file read: the
in-memory byte buffer is rejected outright when its length is not an exact
multiple of 32, and otherwise every 32-byte chunk is parsed. -/
def load_splats_from_bytes (bytes : List ℕ) : Except String (List RawSplat) :=
  if bytes.length % 32 ≠ 0 then .error "Invalid file: not divisible by 32 bytes"
  else parse_chunks (chunks_of_32 bytes)

/-!
## Projection stage (`src/renderer.rs`)
-/

/-- A homogeneous 4-vector of `f32` values, embedded with exact rational
semantics (`nalgebra::Vector4<f32>`). -/
structure Vec4Q where
  x : ℚ
  y : ℚ
  z : ℚ
  w : ℚ
  deriving DecidableEq

/-- A 4×4 `f32` matrix (`nalgebra::Matrix4<f32>`), row-major entries. -/
structure Mat4Q where
  m00 : ℚ
  m01 : ℚ
  m02 : ℚ
  m03 : ℚ
  m10 : ℚ
  m11 : ℚ
  m12 : ℚ
  m13 : ℚ
  m20 : ℚ
  m21 : ℚ
  m22 : ℚ
  m23 : ℚ
  m30 : ℚ
  m31 : ℚ
  m32 : ℚ
  m33 : ℚ
  deriving DecidableEq

/-- Matrix-vector product `M * v` (`nalgebra`'s `Matrix4 * Vector4`). -/
def mat4_mul_vec (m : Mat4Q) (v : Vec4Q) : Vec4Q :=
  { x := m.m00 * v.x + m.m01 * v.y + m.m02 * v.z + m.m03 * v.w
    y := m.m10 * v.x + m.m11 * v.y + m.m12 * v.z + m.m13 * v.w
    z := m.m20 * v.x + m.m21 * v.y + m.m22 * v.z + m.m23 * v.w
    w := m.m30 * v.x + m.m31 * v.y + m.m32 * v.z + m.m33 * v.w }

/-- The homogeneous world-space position `Vector4::new(x, y, z, 1.0)` built
from a splat's position in `render_in_place`. -/
def homogeneous_position (p : ℚ × ℚ × ℚ) : Vec4Q :=
  { x := p.1, y := p.2.1, z := p.2.2, w := 1 }

/-- Embedding of `get_pixel_coordinates_from_projected_coordinates`:
perspective-divide `x`, `y`, `z` by `w` (written `*= 1/w` in the source),
then additionally divide `x`, `y` by the divided `z`; cull (return `none`)
when the resulting `x` or `y` leaves `[-1, 1]`; otherwise remap into `u32`
render coordinates.  The `cfg(debug_assertions)` out-of-range panic of the
source is a release-mode no-op and is omitted. -/
def get_pixel_coordinates_from_projected_coordinates (v : Vec4Q)
    (render_width render_height : ℕ) : Option (ℕ × ℕ) :=
  let projected_x := v.x * (1 / v.w)
  let projected_y := v.y * (1 / v.w)
  let projected_z := v.z * (1 / v.w)
  let projected_x2 := projected_x * (1 / projected_z)
  let projected_y2 := projected_y * (1 / projected_z)
  if ¬(-1 ≤ projected_x2 ∧ projected_x2 ≤ 1) then none
  else if ¬(-1 ≤ projected_y2 ∧ projected_y2 ≤ 1) then none
  else
    some
      (f32_round_as_u32 ((projected_x2 + 1) / 2 * ((render_width : ℚ) - 1)),
        f32_round_as_u32 ((projected_y2 + 1) / 2 * ((render_height : ℚ) - 1)))

/-- Embedding of `get_splat_distance_from_camera`: the Euclidean norm of the
`xyz` part of the (clip-space) position, `camera_space_position.xyz().norm()`. -/
noncomputable def get_splat_distance_from_camera (v : Vec4Q) : ℝ :=
  Real.sqrt (((v.x : ℝ)) ^ 2 + ((v.y : ℝ)) ^ 2 + ((v.z : ℝ)) ^ 2)

/-- Embedding of the billboard-size computation in `render_in_place`:
`(2.0 * splat_scaling_factor / distance_from_camera).round() as u32`. -/
noncomputable def billboard_size_of_splat (scaling_factor : ℚ) (v : Vec4Q) : ℕ :=
  f32_round_real_as_u32 (2 * (scaling_factor : ℝ) / get_splat_distance_from_camera v)

/-- An RGBA color with one unsigned byte per channel, straight alpha
(`Vector4<u8>`). -/
structure ColorU8 where
  r : ℕ
  g : ℕ
  b : ℕ
  a : ℕ
  deriving DecidableEq

/-- A splat as consumed by the renderer (`struct Splat`), with the `f32`
fields taken at exact rational values. -/
structure SplatQ where
  position : ℚ × ℚ × ℚ
  scale : ℚ × ℚ × ℚ
  color : ColorU8
  rotation : ℚ × ℚ × ℚ × ℚ

/-- Embedding of `struct PreparedSplat` from `render_in_place` (the unused
`scale`/`rotation` carries are dropped). -/
structure PreparedSplat where
  distance_from_camera : ℝ
  center_pixel_in_viewport : ℕ × ℕ
  billboard_size_in_pixels : ℕ
  color : ColorU8

/-- Embedding of the per-splat body of the `filter_map` in `render_in_place`:
transform the homogeneous world position by the joint matrix, compute the
distance and billboard size from the clip-space position, and keep the splat
exactly when the projection stage yields pixel coordinates. -/
noncomputable def prepare_splat (joint_matrix : Mat4Q) (scaling_factor : ℚ)
    (render_width render_height : ℕ) (s : SplatQ) : Option PreparedSplat :=
  let position_in_clip_space := mat4_mul_vec joint_matrix (homogeneous_position s.position)
  (get_pixel_coordinates_from_projected_coordinates position_in_clip_space
      render_width render_height).map fun center =>
    { distance_from_camera := get_splat_distance_from_camera position_in_clip_space
      center_pixel_in_viewport := center
      billboard_size_in_pixels := billboard_size_of_splat scaling_factor position_in_clip_space
      color := s.color }

/-- The prepared-splat list of one render pass: `par_iter().filter_map(..)`
collected into a `Vec` (rayon's indexed `collect` preserves the scene
order). -/
noncomputable def prepared_list (joint_matrix : Mat4Q) (scaling_factor : ℚ)
    (render_width render_height : ℕ) (scene : List SplatQ) : List PreparedSplat :=
  scene.filterMap (prepare_splat joint_matrix scaling_factor render_width render_height)

/-- The postcondition of the depth sort
`par_sort_unstable_by(|a, b| a.distance.total_cmp(&b.distance).reverse())`:
consecutive (hence all) pairs are in descending distance order. -/
def sorted_back_to_front (l : List PreparedSplat) : Prop :=
  l.Pairwise (fun a b => b.distance_from_camera ≤ a.distance_from_camera)

/-!
## Billboard coordinates iterator (`src/renderer.rs`)
-/

/-- Embedding of `struct PixelPosition`. -/
structure PixelPosition where
  x : ℕ
  y : ℕ
  deriving DecidableEq

/-- Embedding of `u32::saturating_add`. -/
def u32_saturating_add (a b : ℕ) : ℕ := min (a + b) u32_max

/-- Embedding of `struct BillboardCoordinatesIterator`'s state.  `u32` values
are embedded as `ℕ`; `saturating_sub` is `ℕ` subtraction. -/
structure BState where
  x_start : ℕ
  x_stop : ℕ
  y_stop : ℕ
  x_max : ℕ
  y_max : ℕ
  next_x : ℕ
  next_y : ℕ
  finished : Bool
  deriving DecidableEq

/-- Embedding of `BillboardCoordinatesIterator::from_center_and_size`:
`linear_distance = billboard_size_pixels.max(1).div_ceil(2)`, window bounds by
saturating arithmetic around the center pixel. -/
def from_center_and_size (viewport_size : ℕ × ℕ) (center_pixel : ℕ × ℕ)
    (billboard_size_pixels : ℕ) : BState :=
  let linear_distance := (max billboard_size_pixels 1 + 1) / 2
  { x_start := center_pixel.1 - linear_distance
    x_stop := u32_saturating_add center_pixel.1 linear_distance
    y_stop := u32_saturating_add center_pixel.2 linear_distance
    x_max := viewport_size.1 - 1
    y_max := viewport_size.2 - 1
    next_x := center_pixel.1 - linear_distance
    next_y := center_pixel.2 - linear_distance
    finished := false }

/-- Embedding of `BillboardCoordinatesIterator::next`: emit the current
coordinates, advance `next_x`, wrap to the next row when `next_x` passes
`x_stop` or `x_max`, and finish when `next_y` passes `y_stop` or `y_max`. -/
def billboard_step (s : BState) : Option (PixelPosition × BState) :=
  if s.finished then none
  else
    let current : PixelPosition := ⟨s.next_x, s.next_y⟩
    let incremented_x := s.next_x + 1
    let wrap : Prop := incremented_x > s.x_stop ∨ incremented_x > s.x_max
    let new_x := if wrap then s.x_start else incremented_x
    let new_y := if wrap then s.next_y + 1 else s.next_y
    let is_finished : Bool := decide (new_y > s.y_stop ∨ new_y > s.y_max)
    some (current, { s with next_x := new_x, next_y := new_y, finished := is_finished })

/-- Run the iterator for at most `fuel` emissions, collecting the pixels. -/
def run_billboard : ℕ → BState → List PixelPosition
  | 0, _ => []
  | fuel + 1, s =>
    match billboard_step s with
    | none => []
    | some (p, s2) => p :: run_billboard fuel s2

/-- An upper bound on the number of pixels the iterator can emit from state
`s` (proved sufficient below), used as fuel so that `billboard_pixels` is a
total function equal to exhausting the iterator. -/
def billboard_fuel (s : BState) : ℕ :=
  (min s.x_stop s.x_max + 1 - s.x_start) * (min s.y_stop s.y_max + 1 - s.next_y) +
    (min s.y_stop s.y_max + 2 - s.next_y) + 1

/-- All pixels emitted by a `BillboardCoordinatesIterator` built by
`from_center_and_size`, in emission order. -/
def billboard_pixels (viewport_size : ℕ × ℕ) (center_pixel : ℕ × ℕ)
    (billboard_size_pixels : ℕ) : List PixelPosition :=
  let s := from_center_and_size viewport_size center_pixel billboard_size_pixels
  run_billboard (billboard_fuel s) s

/-- The row-major rectangle of pixels with `cols` columns starting at `x0`
and `rows` rows starting at `y0` (specification-side description of a clipped
billboard window). -/
def rect_rows (x0 cols y0 rows : ℕ) : List PixelPosition :=
  ((List.range' y0 rows).map
    (fun y => (List.range' x0 cols).map (fun x => PixelPosition.mk x y))).flatten

/-!
## Billboard compositor (`src/renderer.rs`)
-/

/-- The frame buffer, a mapping from byte index to byte value (the source's
`Vec<u8>` of RGBA bytes, row-major, 4 bytes per pixel). -/
def FrameBuffer : Type := ℕ → ℕ

/-- Write one byte of the frame buffer. -/
def set_byte (frame : FrameBuffer) (i v : ℕ) : FrameBuffer :=
  fun j => if j = i then v else frame j

/-- Embedding of the per-channel "over" blend of the compositing loop:
read the destination byte, normalize everything into `[0,1]` floats,
blend `(1 - a) * dst + a * src`, scale back by 255 and round to a byte. -/
def blend_channel (dst src alpha : ℕ) : ℕ :=
  let splat_alpha : ℚ := (alpha : ℚ) / 255
  f32_round_as_u8 (((1 - splat_alpha) * ((dst : ℚ) / 255) + splat_alpha * ((src : ℚ) / 255)) * 255)

/-- Embedding of one iteration of the compositing loop body: blend the splat
color onto the R, G, B bytes of the covered pixel; the alpha byte at
`pixel_index + 3` is not written. -/
def composite_pixel (render_width : ℕ) (frame : FrameBuffer) (p : PixelPosition)
    (color : ColorU8) : FrameBuffer :=
  let pixel_index := (p.y * render_width + p.x) * 4
  set_byte
    (set_byte
      (set_byte frame pixel_index (blend_channel (frame pixel_index) color.r color.a))
      (pixel_index + 1) (blend_channel (frame (pixel_index + 1)) color.g color.a))
    (pixel_index + 2) (blend_channel (frame (pixel_index + 2)) color.b color.a)

/-- Embedding of the per-splat compositing loop: blend the splat into every
pixel its billboard iterator enumerates. -/
def composite_splat (render_width render_height : ℕ) (frame : FrameBuffer)
    (ps : PreparedSplat) : FrameBuffer :=
  (billboard_pixels (render_width, render_height) ps.center_pixel_in_viewport
      ps.billboard_size_in_pixels).foldl
    (fun f p => composite_pixel render_width f p ps.color) frame

/-- Embedding of the canvas reset: every pixel becomes opaque black
`[0, 0, 0, 255]` (bytes outside the buffer are 0). -/
def reset_frame (render_width render_height : ℕ) : FrameBuffer :=
  fun i => if i < render_width * render_height * 4 then (if i % 4 = 3 then 255 else 0) else 0

/-- Composite a back-to-front list of prepared splats over a background. -/
def composite_all (render_width render_height : ℕ) (background : FrameBuffer)
    (sorted : List PreparedSplat) : FrameBuffer :=
  sorted.foldl (composite_splat render_width render_height) background

/-- Result of one `render_in_place` recompute: either a Rust panic or a
finished frame. -/
inductive RenderOutcome
  | panicked
  | frame (f : FrameBuffer)

/-- Embedding of the tail of `render_in_place`, parametrized by the sorted
prepared-splat list (the contract of the unstable parallel sort) and by
whether trace-level logging is enabled.  After sorting, the source logs the
first and last sorted splat distances through `trace!`, whose arguments
(containing `first().unwrap()` / `last().unwrap()`) are evaluated only when
the trace event is enabled; with an empty list this unwrap panics.  Otherwise
the canvas is reset and the splats are composited back to front. -/
def render_outcome_with_sorted (trace_logging_enabled : Bool)
    (sorted : List PreparedSplat) (render_width render_height : ℕ) : RenderOutcome :=
  if sorted.isEmpty ∧ trace_logging_enabled then RenderOutcome.panicked
  else
    RenderOutcome.frame
      (composite_all render_width render_height (reset_frame render_width render_height) sorted)

/-!
## Camera model (`src/renderer.rs`)
-/

/-- A 3-vector of `f32` values with real-number semantics
(`nalgebra::Vector3<f32>` / `Point3<f32>`). -/
def Vec3R : Type := ℝ × ℝ × ℝ

/-- Componentwise difference. -/
noncomputable def sub3 (a b : Vec3R) : Vec3R := (a.1 - b.1, a.2.1 - b.2.1, a.2.2 - b.2.2)

/-- Scalar multiple. -/
noncomputable def smul3 (c : ℝ) (v : Vec3R) : Vec3R := (c * v.1, c * v.2.1, c * v.2.2)

/-- Dot product. -/
noncomputable def dot3 (a b : Vec3R) : ℝ := a.1 * b.1 + a.2.1 * b.2.1 + a.2.2 * b.2.2

/-- Cross product (`nalgebra::Vector3::cross`). -/
noncomputable def cross3 (a b : Vec3R) : Vec3R :=
  (a.2.1 * b.2.2 - a.2.2 * b.2.1, a.2.2 * b.1 - a.1 * b.2.2, a.1 * b.2.1 - a.2.1 * b.1)

/-- Euclidean norm. -/
noncomputable def norm3 (v : Vec3R) : ℝ := Real.sqrt (dot3 v v)

/-- Embedding of `nalgebra`'s `normalize`: divide by the norm. -/
noncomputable def normalize3 (v : Vec3R) : Vec3R := smul3 (norm3 v)⁻¹ v

/-- The derived orthonormal camera basis. -/
structure CameraBasis where
  forward_vector : Vec3R
  side_vector : Vec3R
  up_vector : Vec3R

/-- The basis derivation shared by `SplatRenderer::new` and
`render_in_place`: `forward = normalize(target - position)`,
`side = normalize(forward × up_reference)`, `up = normalize(side × forward)`. -/
noncomputable def derive_camera_basis (position look_target up_reference : Vec3R) :
    CameraBasis :=
  let forward := normalize3 (sub3 look_target position)
  let side := normalize3 (cross3 forward up_reference)
  { forward_vector := forward, side_vector := side, up_vector := normalize3 (cross3 side forward) }

/-- Embedding of the basis computation in `SplatRenderer::new`: the
user-supplied up hint is normalized first and then used as the cross-product
reference. -/
noncomputable def new_camera_basis (position look_target up_hint : Vec3R) : CameraBasis :=
  derive_camera_basis position look_target (normalize3 up_hint)

/-- Embedding of the basis recomputation at the top of `render_in_place`: the
cross-product reference is `inner_locked.up_vector`, the up vector STORED by
the previous derivation (not the user-supplied hint, which is not retained in
the renderer state). -/
noncomputable def render_camera_basis (position look_target stored_up : Vec3R) : CameraBasis :=
  derive_camera_basis position look_target stored_up

/-!
## Render state machine (`src/renderer.rs`, `src/main.rs`)
-/

/-- Embedding of `struct SplatRendererInner`: the staleness flag, the mutable
camera state, the derived basis vectors and the cached frame. -/
structure RCState where
  pending_rerender : Bool
  camera_position : Vec3R
  camera_look_target : Vec3R
  forward_vector : Vec3R
  side_vector : Vec3R
  up_vector : Vec3R
  frame : FrameBuffer

/-- Embedding of the state effect of `SplatRenderer::render_in_place`:
re-derive the basis from the current camera state and the stored up vector,
recompute the frame, and clear `pending_rerender`.  The frame content (the
prepare → sort → composite pipeline verified separately) is abstracted by the
`recompute` parameter. -/
noncomputable def render_in_place_state (recompute : RCState → FrameBuffer) (s : RCState) :
    RCState :=
  let basis := render_camera_basis s.camera_position s.camera_look_target s.up_vector
  { s with
    forward_vector := basis.forward_vector
    side_vector := basis.side_vector
    up_vector := basis.up_vector
    frame := recompute s
    pending_rerender := false }

/-- Embedding of `SplatRenderer::draw` (the read path serving a frame):
returns the new renderer state, the served frame, and the number of full
recomputes performed. -/
noncomputable def draw_frame (recompute : RCState → FrameBuffer) (s : RCState) :
    RCState × FrameBuffer × ℕ :=
  if s.pending_rerender then
    let s2 := render_in_place_state recompute s
    (s2, s2.frame, 1)
  else (s, s.frame, 0)

/-- The camera-movement step `MOVE_CAMERA_BY = 0.1` (exact-real semantics). -/
noncomputable def move_camera_by : ℝ := 1 / 10

/-- The operations applied to the renderer state by the rest of the program:
the eight camera intents of `handle_window_event`, the `draw` read path, and
the direct `render_in_place` call made by `main` right after construction. -/
inductive RendererOp
  | move_x_neg
  | move_x_pos
  | move_y_neg
  | move_y_pos
  | move_z_neg
  | move_z_pos
  | zoom_out
  | zoom_in
  | read_draw
  | direct_render
  deriving DecidableEq

/-- Apply one renderer operation to the state.  The eight intents mutate the
camera position and set `pending_rerender := true` exactly as
`handle_window_event` does; `read_draw` is the state effect of `draw`;
`direct_render` is a direct `render_in_place` call (`main.rs` performs one
right after constructing the renderer). -/
noncomputable def apply_renderer_op (recompute : RCState → FrameBuffer) :
    RendererOp → RCState → RCState
  | .move_x_neg, s =>
    { s with
      camera_position :=
        (s.camera_position.1 - move_camera_by, s.camera_position.2.1, s.camera_position.2.2)
      pending_rerender := true }
  | .move_x_pos, s =>
    { s with
      camera_position :=
        (s.camera_position.1 + move_camera_by, s.camera_position.2.1, s.camera_position.2.2)
      pending_rerender := true }
  | .move_y_neg, s =>
    { s with
      camera_position :=
        (s.camera_position.1, s.camera_position.2.1 - move_camera_by, s.camera_position.2.2)
      pending_rerender := true }
  | .move_y_pos, s =>
    { s with
      camera_position :=
        (s.camera_position.1, s.camera_position.2.1 + move_camera_by, s.camera_position.2.2)
      pending_rerender := true }
  | .move_z_neg, s =>
    { s with
      camera_position :=
        (s.camera_position.1, s.camera_position.2.1, s.camera_position.2.2 - move_camera_by)
      pending_rerender := true }
  | .move_z_pos, s =>
    { s with
      camera_position :=
        (s.camera_position.1, s.camera_position.2.1, s.camera_position.2.2 + move_camera_by)
      pending_rerender := true }
  | .zoom_out, s =>
    let movement :=
      smul3 move_camera_by (normalize3 (sub3 s.camera_look_target s.camera_position))
    { s with
      camera_position :=
        (s.camera_position.1 - movement.1, s.camera_position.2.1 - movement.2.1,
          s.camera_position.2.2 - movement.2.2)
      pending_rerender := true }
  | .zoom_in, s =>
    let movement :=
      smul3 move_camera_by (normalize3 (sub3 s.camera_look_target s.camera_position))
    { s with
      camera_position :=
        (s.camera_position.1 + movement.1, s.camera_position.2.1 + movement.2.1,
          s.camera_position.2.2 + movement.2.2)
      pending_rerender := true }
  | .read_draw, s => (draw_frame recompute s).1
  | .direct_render, s => render_in_place_state recompute s

/-!
## Decoder lemmas
-/

/-- `chunks_of_32` of the empty buffer is empty. -/
theorem chunks_of_32_nil : chunks_of_32 [] = [] := by
  rw [chunks_of_32]
  simp

/-- A buffer of length `32 * k` splits into `k` chunks of 32 bytes each. -/
theorem chunks_of_32_spec :
    ∀ (k : ℕ) (bytes : List ℕ), bytes.length = 32 * k →
      (chunks_of_32 bytes).length = k ∧ ∀ c ∈ chunks_of_32 bytes, c.length = 32 := by
  intro k
  induction k with
  | zero =>
    intro bytes hlen
    have : bytes = [] := List.length_eq_zero.mp (by omega)
    subst this
    rw [chunks_of_32_nil]
    simp
  | succ k ih =>
    intro bytes hlen
    have hne : bytes ≠ [] := by
      intro h
      subst h
      simp at hlen
    rw [chunks_of_32, dif_neg hne]
    have htake : (bytes.take 32).length = 32 := by
      rw [List.length_take]
      omega
    have hdrop : (bytes.drop 32).length = 32 * k := by
      rw [List.length_drop]
      omega
    obtain ⟨ihlen, ihall⟩ := ih (bytes.drop 32) hdrop
    refine ⟨by simp [ihlen], ?_⟩
    intro c hc
    rcases List.mem_cons.mp hc with h | h
    · rw [h, htake]
    · exact ihall c h

/-- Parsing a list of 32-byte chunks always succeeds and yields one record
per chunk. -/
theorem parse_chunks_ok :
    ∀ (cs : List (List ℕ)), (∀ c ∈ cs, c.length = 32) →
      ∃ ss, parse_chunks cs = .ok ss ∧ ss.length = cs.length := by
  intro cs
  induction cs with
  | nil => exact fun _ => ⟨[], rfl, rfl⟩
  | cons c rest ih =>
    intro hall
    have hc : c.length = 32 := hall c (List.mem_cons_self c rest)
    obtain ⟨ss, hok, hlen⟩ := ih fun d hd => hall d (List.mem_cons_of_mem c hd)
    obtain ⟨r, hfr⟩ : ∃ r, from_raw_splat_file_data c = .ok r :=
      ⟨_, by rw [from_raw_splat_file_data, if_pos hc]⟩
    refine ⟨r :: ss, ?_, by simp [hlen]⟩
    rw [parse_chunks, hfr, hok]

/-!
## Claim theorems: decoder
-/

/-- C2: loading a byte buffer fails (with an error and no partial scene) if
and only if its length is not an exact multiple of 32 — a 32-byte chunk
itself never fails to parse — and on success the scene has exactly
`length / 32` splats. -/
theorem c2_load_length_iff (bytes : List ℕ) :
    (∃ ss, load_splats_from_bytes bytes = .ok ss ∧ ss.length = bytes.length / 32) ↔
      bytes.length % 32 = 0 := by
  constructor
  · rintro ⟨ss, hok, -⟩
    by_contra h
    rw [load_splats_from_bytes, if_pos h] at hok
    simp at hok
  · intro h
    have hlen : bytes.length = 32 * (bytes.length / 32) :=
      (Nat.div_mul_cancel (Nat.dvd_of_mod_eq_zero h)).symm.trans (Nat.mul_comm _ _)
    obtain ⟨hclen, hcall⟩ := chunks_of_32_spec (bytes.length / 32) bytes hlen
    obtain ⟨ss, hok, hsslen⟩ := parse_chunks_ok (chunks_of_32 bytes) hcall
    refine ⟨ss, ?_, by rw [hsslen, hclen]⟩
    rw [load_splats_from_bytes, if_neg (by simp [h]), hok]

/-- C2 witness: a 32-byte buffer decodes into exactly one splat, and 32 is a
multiple of 32. -/
theorem c2_witness :
    (∃ ss, load_splats_from_bytes (List.replicate 32 0) = .ok ss ∧
        ss.length = (List.replicate 32 (0 : ℕ)).length / 32) ↔
      (List.replicate 32 (0 : ℕ)).length % 32 = 0 :=
  c2_load_length_iff (List.replicate 32 0)

/-- C7: a valid 32-byte record decodes, in order, bytes 0–11 as the three
position components (each a little-endian 32-bit pattern), bytes 12–23 as the
three scale components, bytes 24–27 as R, G, B and straight alpha, and bytes
28–31 as the four rotation components, each mapped to `(byte - 128) / 128`. -/
theorem c7_record_decode_layout (b0 b1 b2 b3 b4 b5 b6 b7 b8 b9 b10 b11 b12 b13 b14 b15
    b16 b17 b18 b19 b20 b21 b22 b23 b24 b25 b26 b27 b28 b29 b30 b31 : ℕ) :
    from_raw_splat_file_data
        [b0, b1, b2, b3, b4, b5, b6, b7, b8, b9, b10, b11, b12, b13, b14, b15, b16, b17,
          b18, b19, b20, b21, b22, b23, b24, b25, b26, b27, b28, b29, b30, b31] =
      .ok
        { position :=
            (b0 + 256 * b1 + 65536 * b2 + 16777216 * b3,
              b4 + 256 * b5 + 65536 * b6 + 16777216 * b7,
              b8 + 256 * b9 + 65536 * b10 + 16777216 * b11)
          scale :=
            (b12 + 256 * b13 + 65536 * b14 + 16777216 * b15,
              b16 + 256 * b17 + 65536 * b18 + 16777216 * b19,
              b20 + 256 * b21 + 65536 * b22 + 16777216 * b23)
          color := (b24, b25, b26, b27)
          rotation :=
            ((((b28 : ℤ) - 128 : ℤ) : ℚ) / 128, (((b29 : ℤ) - 128 : ℤ) : ℚ) / 128,
              (((b30 : ℤ) - 128 : ℤ) : ℚ) / 128, (((b31 : ℤ) - 128 : ℤ) : ℚ) / 128) } :=
  rfl

/-!
## Billboard iterator lemmas
-/

/-- A finished iterator emits nothing. -/
theorem run_billboard_finished (fuel : ℕ) (s : BState) (h : s.finished = true) :
    run_billboard fuel s = [] := by
  cases fuel with
  | zero => rfl
  | succ n => simp [run_billboard, billboard_step, h]

/-- Peeling one row off a pixel rectangle. -/
theorem rect_rows_succ (x0 cols y0 rows : ℕ) :
    rect_rows x0 cols y0 (rows + 1) =
      (List.range' x0 cols).map (fun x => PixelPosition.mk x y0) ++
        rect_rows x0 cols (y0 + 1) rows := by
  simp [rect_rows, List.range'_succ]

/-- An empty pixel rectangle. -/
theorem rect_rows_zero (x0 cols y0 : ℕ) : rect_rows x0 cols y0 0 = [] := by
  simp [rect_rows]

/-- Characterization of the billboard iterator: from any live state whose
cursor is inside the clipped window, the iterator emits the rest of the
current row and then every full row up to the clipped bottom edge, in
row-major order. -/
theorem run_billboard_char :
    ∀ (fuel : ℕ) (s : BState), s.finished = false →
      s.x_start ≤ s.next_x → s.next_x ≤ min s.x_stop s.x_max →
      s.next_y ≤ min s.y_stop s.y_max →
      (min s.x_stop s.x_max + 1 - s.next_x) +
          (min s.x_stop s.x_max + 1 - s.x_start) * (min s.y_stop s.y_max - s.next_y) ≤ fuel →
      run_billboard fuel s =
        (List.range' s.next_x (min s.x_stop s.x_max + 1 - s.next_x)).map
            (fun x => PixelPosition.mk x s.next_y) ++
          rect_rows s.x_start (min s.x_stop s.x_max + 1 - s.x_start) (s.next_y + 1)
            (min s.y_stop s.y_max - s.next_y) := by
  intro fuel
  induction fuel with
  | zero =>
    intro s _ _ hx hy hfuel
    omega
  | succ fuel ih =>
    intro s hfin hx0 hx hy hfuel
    by_cases hw : s.next_x + 1 > s.x_stop ∨ s.next_x + 1 > s.x_max
    · have hxeq : s.next_x = min s.x_stop s.x_max := by omega
      by_cases hylast : s.next_y = min s.y_stop s.y_max
      · have hdec : decide (s.next_y + 1 > s.y_stop ∨ s.next_y + 1 > s.y_max) = true := by
          rw [decide_eq_true_eq]
          omega
        have hrow : min s.x_stop s.x_max + 1 - s.next_x = 1 := by omega
        have hrows : min s.y_stop s.y_max - s.next_y = 0 := by omega
        rw [run_billboard]
        simp only [billboard_step, hfin, Bool.false_eq_true, if_false, if_pos hw, hdec]
        rw [run_billboard_finished fuel _ rfl, hrow, hrows, rect_rows_zero, hxeq]
        simp
      · have hylt : s.next_y < min s.y_stop s.y_max := by omega
        have hdec : decide (s.next_y + 1 > s.y_stop ∨ s.next_y + 1 > s.y_max) = false := by
          rw [decide_eq_false_iff_not]
          omega
        rw [run_billboard]
        simp only [billboard_step, hfin, Bool.false_eq_true, if_false, if_pos hw, hdec]
        have hmul :
            (min s.x_stop s.x_max + 1 - s.x_start) * (min s.y_stop s.y_max - s.next_y) =
              (min s.x_stop s.x_max + 1 - s.x_start) *
                  (min s.y_stop s.y_max - (s.next_y + 1)) +
                (min s.x_stop s.x_max + 1 - s.x_start) := by
          rw [← Nat.mul_succ]
          congr 1
          omega
        rw [ih { s with next_x := s.x_start, next_y := s.next_y + 1, finished := false }
            rfl (le_refl _) (by simpa using by omega) (by simpa using by omega)
            (by simp only []; omega)]
        simp only []
        have hrows : min s.y_stop s.y_max - s.next_y =
            (min s.y_stop s.y_max - (s.next_y + 1)) + 1 := by omega
        rw [hrows, rect_rows_succ]
        have hrow1 : min s.x_stop s.x_max + 1 - s.next_x = 1 := by omega
        rw [hrow1, hxeq]
        simp
    · have hxlt : s.next_x < min s.x_stop s.x_max := by omega
      have hdec : decide (s.next_y > s.y_stop ∨ s.next_y > s.y_max) = false := by
        rw [decide_eq_false_iff_not]
        omega
      rw [run_billboard]
      simp only [billboard_step, hfin, Bool.false_eq_true, if_false, if_neg hw, hdec]
      rw [ih { s with next_x := s.next_x + 1, finished := false }
          rfl (by simp only []; omega) (by simp only []; omega) (by simpa using hy)
          (by simp only []; omega)]
      simp only []
      have hcount : min s.x_stop s.x_max + 1 - s.next_x =
          (min s.x_stop s.x_max + 1 - (s.next_x + 1)) + 1 := by omega
      rw [hcount, List.range'_succ]
      simp

/-- The pixels of a billboard built by `from_center_and_size` around a center
inside the viewport are exactly the rectangle `[cx-d, min(cx+d, w-1)] ×
[cy-d, min(cy+d, h-1)]`, in row-major order, where
`d = ceil(max(size,1) / 2)`. -/
theorem billboard_pixels_eq (w h cx cy size d : ℕ)
    (hd : d = (max size 1 + 1) / 2)
    (hw1 : 1 ≤ w) (hh1 : 1 ≤ h) (hcx : cx ≤ w - 1) (hcy : cy ≤ h - 1)
    (hwm : w ≤ u32_max) (hhm : h ≤ u32_max) :
    billboard_pixels (w, h) (cx, cy) size =
      rect_rows (cx - d) (min (cx + d) (w - 1) + 1 - (cx - d)) (cy - d)
        (min (cy + d) (h - 1) + 1 - (cy - d)) := by
  have hum : u32_max = 4294967295 := rfl
  subst hd
  rw [show billboard_pixels (w, h) (cx, cy) size =
      run_billboard
        (billboard_fuel
          ⟨cx - (max size 1 + 1) / 2, min (cx + (max size 1 + 1) / 2) u32_max,
            min (cy + (max size 1 + 1) / 2) u32_max, w - 1, h - 1,
            cx - (max size 1 + 1) / 2, cy - (max size 1 + 1) / 2, false⟩)
        ⟨cx - (max size 1 + 1) / 2, min (cx + (max size 1 + 1) / 2) u32_max,
          min (cy + (max size 1 + 1) / 2) u32_max, w - 1, h - 1,
          cx - (max size 1 + 1) / 2, cy - (max size 1 + 1) / 2, false⟩ from rfl]
  set d := (max size 1 + 1) / 2 with hd
  have hmul :
      (min (min (cx + d) u32_max) (w - 1) + 1 - (cx - d)) *
          (min (min (cy + d) u32_max) (h - 1) + 1 - (cy - d)) =
        (min (min (cx + d) u32_max) (w - 1) + 1 - (cx - d)) *
            (min (min (cy + d) u32_max) (h - 1) - (cy - d)) +
          (min (min (cx + d) u32_max) (w - 1) + 1 - (cx - d)) := by
    rw [← Nat.mul_succ]
    congr 1
    omega
  rw [run_billboard_char _ _ rfl (le_refl _) (by simp only []; omega)
      (by simp only []; omega) (by simp only [billboard_fuel]; omega)]
  simp only []
  have hminx : min (min (cx + d) u32_max) (w - 1) = min (cx + d) (w - 1) := by omega
  have hminy : min (min (cy + d) u32_max) (h - 1) = min (cy + d) (h - 1) := by omega
  rw [hminx, hminy]
  have hrows : min (cy + d) (h - 1) + 1 - (cy - d) =
      (min (cy + d) (h - 1) - (cy - d)) + 1 := by omega
  rw [hrows, rect_rows_succ]

/-- Membership in a pixel rectangle. -/
theorem mem_rect_rows (p : PixelPosition) (x0 cols y0 rows : ℕ) :
    p ∈ rect_rows x0 cols y0 rows ↔
      (x0 ≤ p.x ∧ p.x < x0 + cols) ∧ (y0 ≤ p.y ∧ p.y < y0 + rows) := by
  constructor
  · intro hp
    simp only [rect_rows, List.mem_flatten, List.mem_map, List.mem_range'_1] at hp
    obtain ⟨l, ⟨y, hy, rfl⟩, hpl⟩ := hp
    obtain ⟨x, hx, rfl⟩ := List.mem_map.mp hpl
    rw [List.mem_range'_1] at hx
    exact ⟨hx, hy⟩
  · rintro ⟨⟨h1, h2⟩, ⟨h3, h4⟩⟩
    simp only [rect_rows, List.mem_flatten, List.mem_map, List.mem_range'_1]
    exact ⟨_, ⟨p.y, ⟨h3, h4⟩, rfl⟩,
      List.mem_map.mpr ⟨p.x, List.mem_range'_1.mpr ⟨h1, h2⟩, rfl⟩⟩

/-- A pixel rectangle has no duplicate pixels. -/
theorem rect_rows_nodup (x0 cols y0 rows : ℕ) : (rect_rows x0 cols y0 rows).Nodup := by
  induction rows generalizing y0 with
  | zero => simp [rect_rows_zero]
  | succ n ih =>
    rw [rect_rows_succ]
    refine List.Nodup.append ?_ (ih (y0 + 1)) ?_
    · refine List.Nodup.map ?_ (List.nodup_range' ..)
      intro a b hab
      simpa using congrArg PixelPosition.x hab
    · intro p hp hp2
      obtain ⟨x, -, rfl⟩ := List.mem_map.mp hp
      have := ((mem_rect_rows _ _ _ _ _).mp hp2).2.1
      simp at this

/-!
## Compositor lemmas
-/

/-- The row-major linear pixel index is injective on viewport coordinates. -/
theorem pixel_index_inj (w : ℕ) (p q : PixelPosition) (hp : p.x < w) (hq : q.x < w)
    (h : p.y * w + p.x = q.y * w + q.x) : p = q := by
  have hxp : (p.y * w + p.x) % w = p.x := by
    rw [Nat.add_comm, Nat.add_mul_mod_self_right, Nat.mod_eq_of_lt hp]
  have hxq : (q.y * w + q.x) % w = q.x := by
    rw [Nat.add_comm, Nat.add_mul_mod_self_right, Nat.mod_eq_of_lt hq]
  have hx : p.x = q.x := by rw [← hxp, ← hxq, h]
  have hy : p.y = q.y := by
    have hw : 0 < w := by omega
    have : p.y * w = q.y * w := by omega
    exact Nat.eq_of_mul_eq_mul_right hw this
  cases p
  cases q
  simp only at hx hy
  rw [hx, hy]

/-- Bytes whose index belongs to no written RGB block are unchanged by the
compositing fold. -/
theorem composite_fold_untouched (w : ℕ) (c : ColorU8) :
    ∀ (l : List PixelPosition) (frame : FrameBuffer) (i : ℕ),
      (∀ q ∈ l, ∀ k, k < 3 → (q.y * w + q.x) * 4 + k ≠ i) →
      (l.foldl (fun f pp => composite_pixel w f pp c) frame) i = frame i := by
  intro l
  induction l with
  | nil => intro frame i _; rfl
  | cons q rest ih =>
    intro frame i h
    have h0 := h q (List.mem_cons_self q rest) 0 (by omega)
    have h1 := h q (List.mem_cons_self q rest) 1 (by omega)
    have h2 := h q (List.mem_cons_self q rest) 2 (by omega)
    rw [List.foldl_cons, ih _ i fun q' hq' => h q' (List.mem_cons_of_mem q hq')]
    simp only [composite_pixel, set_byte]
    rw [if_neg (by omega), if_neg (by omega), if_neg (by omega)]

/-- Reading one byte of the frame after compositing a single pixel that is a
different viewport pixel: unchanged. -/
theorem composite_pixel_at_other (w : ℕ) (c : ColorU8) (frame : FrameBuffer)
    (p q : PixelPosition) (hp : p.x < w) (hq : q.x < w) (hne : q ≠ p) (k : ℕ) (hk : k ≤ 3) :
    composite_pixel w frame q c ((p.y * w + p.x) * 4 + k) = frame ((p.y * w + p.x) * 4 + k) := by
  have hlin : q.y * w + q.x ≠ p.y * w + p.x := fun hcontra =>
    hne (pixel_index_inj w q p hq hp hcontra)
  simp only [composite_pixel, set_byte]
  rw [if_neg (by omega), if_neg (by omega), if_neg (by omega)]

/-- After the compositing fold over a duplicate-free pixel list, each covered
pixel's RGB bytes hold the blend of the pre-fold frame with the splat color,
and its alpha byte is unchanged. -/
theorem composite_fold_at_pixel (w : ℕ) (c : ColorU8) :
    ∀ (l : List PixelPosition) (frame : FrameBuffer) (p : PixelPosition),
      p ∈ l → l.Nodup → (∀ q ∈ l, q.x < w) →
      (l.foldl (fun f pp => composite_pixel w f pp c) frame) ((p.y * w + p.x) * 4) =
          blend_channel (frame ((p.y * w + p.x) * 4)) c.r c.a ∧
        (l.foldl (fun f pp => composite_pixel w f pp c) frame) ((p.y * w + p.x) * 4 + 1) =
          blend_channel (frame ((p.y * w + p.x) * 4 + 1)) c.g c.a ∧
        (l.foldl (fun f pp => composite_pixel w f pp c) frame) ((p.y * w + p.x) * 4 + 2) =
          blend_channel (frame ((p.y * w + p.x) * 4 + 2)) c.b c.a ∧
        (l.foldl (fun f pp => composite_pixel w f pp c) frame) ((p.y * w + p.x) * 4 + 3) =
          frame ((p.y * w + p.x) * 4 + 3) := by
  intro l
  induction l with
  | nil => intro frame p hmem; exact absurd hmem (List.not_mem_nil p)
  | cons q rest ih =>
    intro frame p hmem hnd hbound
    have hbq : q.x < w := hbound q (List.mem_cons_self q rest)
    have hbp : p.x < w := hbound p hmem
    rw [List.foldl_cons]
    by_cases hqp : q = p
    · subst hqp
      have hnotin : q ∉ rest := (List.nodup_cons.mp hnd).1
      have huntouched : ∀ i : ℕ,
          (q.y * w + q.x) * 4 ≤ i → i ≤ (q.y * w + q.x) * 4 + 3 →
          (rest.foldl (fun f pp => composite_pixel w f pp c) (composite_pixel w frame q c)) i =
            composite_pixel w frame q c i := by
        intro i hi1 hi2
        apply composite_fold_untouched
        intro q' hq' k hk
        have hne : q' ≠ q := fun hcontra => hnotin (hcontra ▸ hq')
        have hlin : q'.y * w + q'.x ≠ q.y * w + q.x := fun hcontra =>
          hne (pixel_index_inj w q' q (hbound q' (List.mem_cons_of_mem q hq')) hbq hcontra)
        omega
      refine ⟨?_, ?_, ?_, ?_⟩
      · rw [huntouched _ (by omega) (by omega)]
        simp only [composite_pixel, set_byte]
        rw [if_neg (by omega), if_neg (by omega)]
        simp
      · rw [huntouched _ (by omega) (by omega)]
        simp only [composite_pixel, set_byte]
        rw [if_neg (by omega)]
        simp
      · rw [huntouched _ (by omega) (by omega)]
        simp only [composite_pixel, set_byte]
        simp
      · rw [huntouched _ (by omega) (by omega)]
        simp only [composite_pixel, set_byte]
        rw [if_neg (by omega), if_neg (by omega), if_neg (by omega)]
    · have hpmem : p ∈ rest := by
        rcases List.mem_cons.mp hmem with h | h
        · exact absurd h.symm hqp
        · exact h
      have hfr1 := ih (composite_pixel w frame q c) p hpmem (List.nodup_cons.mp hnd).2
        fun q' hq' => hbound q' (List.mem_cons_of_mem q hq')
      have e0 := composite_pixel_at_other w c frame p q hbp hbq hqp 0 (by omega)
      have e1 := composite_pixel_at_other w c frame p q hbp hbq hqp 1 (by omega)
      have e2 := composite_pixel_at_other w c frame p q hbp hbq hqp 2 (by omega)
      have e3 := composite_pixel_at_other w c frame p q hbp hbq hqp 3 (by omega)
      rw [show (p.y * w + p.x) * 4 + 0 = (p.y * w + p.x) * 4 from rfl] at e0
      rw [e0, e1, e2, e3] at hfr1
      exact hfr1

/-!
## Claim theorems: projection, billboard, compositing
-/

/-- C1: the projection stage transforms the homogeneous world position by the
joint matrix, divides `x`, `y`, `z` by the resulting `w`, then additionally
divides `x` and `y` by the resulting `z`; the splat is silently discarded
(`none`, no error) exactly when the normalized `x` or `y` leaves `[-1, 1]`,
and otherwise its pixel coordinates are
`round((x+1)/2 * (width-1))` and `round((y+1)/2 * (height-1))`. -/
theorem c1_projection_divide_cull_and_pixel_mapping :
    (∀ (v : Vec4Q) (render_width render_height : ℕ),
        get_pixel_coordinates_from_projected_coordinates v render_width render_height =
          if (-1 ≤ v.x / v.w / (v.z / v.w) ∧ v.x / v.w / (v.z / v.w) ≤ 1) ∧
              (-1 ≤ v.y / v.w / (v.z / v.w) ∧ v.y / v.w / (v.z / v.w) ≤ 1) then
            some
              (f32_round_as_u32
                  ((v.x / v.w / (v.z / v.w) + 1) / 2 * ((render_width : ℚ) - 1)),
                f32_round_as_u32
                  ((v.y / v.w / (v.z / v.w) + 1) / 2 * ((render_height : ℚ) - 1)))
          else none) ∧
      ∀ (joint_matrix : Mat4Q) (scaling_factor : ℚ) (render_width render_height : ℕ)
        (s : SplatQ),
        (prepare_splat joint_matrix scaling_factor render_width render_height s).map
            PreparedSplat.center_pixel_in_viewport =
          get_pixel_coordinates_from_projected_coordinates
            (mat4_mul_vec joint_matrix (homogeneous_position s.position)) render_width
            render_height := by
  constructor
  · intro v w h
    have hx : v.x * (1 / v.w) * (1 / (v.z * (1 / v.w))) = v.x / v.w / (v.z / v.w) := by
      rw [mul_one_div, mul_one_div, mul_one_div]
    have hy : v.y * (1 / v.w) * (1 / (v.z * (1 / v.w))) = v.y / v.w / (v.z / v.w) := by
      rw [mul_one_div, mul_one_div, mul_one_div]
    simp only [get_pixel_coordinates_from_projected_coordinates, hx, hy]
    split_ifs <;> tauto
  · intro joint_matrix scaling_factor render_width render_height s
    cases hcase : get_pixel_coordinates_from_projected_coordinates
        (mat4_mul_vec joint_matrix (homogeneous_position s.position)) render_width
        render_height with
    | none => simp [prepare_splat, hcase]
    | some center => simp [prepare_splat, hcase]

/-- C3 counterexample: with a billboard size of 3 centered at pixel `(5,5)`
in a 10×10 viewport, the iterator emits pixel `(3,3)`, which lies outside the
square window of side 3 centered on `(5,5)` (the rectangle
`[4,6] × [4,6]`, fully inside the viewport): the emitted window is wider
than `billboard_size_pixels`. -/
theorem c3_counterexample :
    PixelPosition.mk 3 3 ∈ billboard_pixels (10, 10) (5, 5) 3 ∧
      PixelPosition.mk 3 3 ∉ rect_rows 4 3 4 3 := by decide

/-- C3 (amended): for a projected center inside the viewport, the set of
pixels enumerated for a splat is exactly the square window of side
`2 * ceil(max(billboard_size_pixels, 1) / 2) + 1` centered on its projected
pixel, intersected with the viewport — with `d = ceil(max(size,1)/2)` the
rectangle `[cx-d, min(cx+d, w-1)] × [cy-d, min(cy+d, h-1)]` — enumerated in
row-major order without duplicates, wrap-around or panic, and every emitted
coordinate lies inside `[0, w-1] × [0, h-1]`. -/
theorem c3_billboard_window_characterization (w h cx cy size d : ℕ)
    (hd : d = (max size 1 + 1) / 2)
    (hw1 : 1 ≤ w) (hh1 : 1 ≤ h) (hcx : cx ≤ w - 1) (hcy : cy ≤ h - 1)
    (hwm : w ≤ u32_max) (hhm : h ≤ u32_max) :
    billboard_pixels (w, h) (cx, cy) size =
        rect_rows (cx - d) (min (cx + d) (w - 1) + 1 - (cx - d)) (cy - d)
          (min (cy + d) (h - 1) + 1 - (cy - d)) ∧
      (billboard_pixels (w, h) (cx, cy) size).Nodup ∧
      ∀ p ∈ billboard_pixels (w, h) (cx, cy) size, p.x ≤ w - 1 ∧ p.y ≤ h - 1 := by
  have heq := billboard_pixels_eq w h cx cy size d hd hw1 hh1 hcx hcy hwm hhm
  refine ⟨heq, heq ▸ rect_rows_nodup _ _ _ _, ?_⟩
  intro p hp
  rw [heq, mem_rect_rows] at hp
  omega

/-- C3 witness: concrete instantiation at a 10×10 viewport, center `(5,5)`,
billboard size 4 (so `d = 2`). -/
theorem c3_witness :
    billboard_pixels (10, 10) (5, 5) 4 =
        rect_rows (5 - 2) (min (5 + 2) (10 - 1) + 1 - (5 - 2)) (5 - 2)
          (min (5 + 2) (10 - 1) + 1 - (5 - 2)) ∧
      (billboard_pixels (10, 10) (5, 5) 4).Nodup ∧
      ∀ p ∈ billboard_pixels (10, 10) (5, 5) 4, p.x ≤ 10 - 1 ∧ p.y ≤ 10 - 1 :=
  c3_billboard_window_characterization 10 10 5 5 4 2 (by decide) (by decide) (by decide)
    (by decide) (by decide) (by decide) (by decide)

/-- C4: for every pixel covered by a composited splat whose projected center
lies in the viewport, the new frame-buffer RGB bytes equal
`round(((1 - a) * dst + a * src) * 255)` computed in normalized `[0,1]`
rational-float space with `a = src_alpha / 255`, and the pixel's alpha byte
is left unchanged by compositing. -/
theorem c4_alpha_blend_per_pixel (w h : ℕ) (frame : FrameBuffer) (ps : PreparedSplat)
    (p : PixelPosition)
    (hw1 : 1 ≤ w) (hh1 : 1 ≤ h) (hwm : w ≤ u32_max) (hhm : h ≤ u32_max)
    (hcx : ps.center_pixel_in_viewport.1 ≤ w - 1)
    (hcy : ps.center_pixel_in_viewport.2 ≤ h - 1)
    (hp : p ∈ billboard_pixels (w, h) ps.center_pixel_in_viewport
        ps.billboard_size_in_pixels) :
    composite_splat w h frame ps ((p.y * w + p.x) * 4) =
        blend_channel (frame ((p.y * w + p.x) * 4)) ps.color.r ps.color.a ∧
      composite_splat w h frame ps ((p.y * w + p.x) * 4 + 1) =
        blend_channel (frame ((p.y * w + p.x) * 4 + 1)) ps.color.g ps.color.a ∧
      composite_splat w h frame ps ((p.y * w + p.x) * 4 + 2) =
        blend_channel (frame ((p.y * w + p.x) * 4 + 2)) ps.color.b ps.color.a ∧
      composite_splat w h frame ps ((p.y * w + p.x) * 4 + 3) =
        frame ((p.y * w + p.x) * 4 + 3) := by
  have heq := billboard_pixels_eq w h ps.center_pixel_in_viewport.1
    ps.center_pixel_in_viewport.2 ps.billboard_size_in_pixels _ rfl hw1 hh1 hcx hcy hwm hhm
  have hnd : (billboard_pixels (w, h) ps.center_pixel_in_viewport
      ps.billboard_size_in_pixels).Nodup := heq ▸ rect_rows_nodup _ _ _ _
  have hbound : ∀ q ∈ billboard_pixels (w, h) ps.center_pixel_in_viewport
      ps.billboard_size_in_pixels, q.x < w := by
    intro q hq
    rw [heq, mem_rect_rows] at hq
    omega
  exact composite_fold_at_pixel w ps.color _ frame p hp hnd hbound

/-- C4 witness: over a 2×2 black canvas, a splat of color
`(100, 150, 200, 51)` with billboard size 1 centered at `(0,0)` covers pixel
`(1,0)`; its blended bytes are `(20, 30, 40)` and the alpha byte stays 255. -/
theorem c4_witness :
    composite_splat 2 2 (reset_frame 2 2)
          ⟨(1 : ℝ), (0, 0), 1, ⟨100, 150, 200, 51⟩⟩ ((0 * 2 + 1) * 4) =
        blend_channel (reset_frame 2 2 ((0 * 2 + 1) * 4)) 100 51 ∧
      composite_splat 2 2 (reset_frame 2 2)
          ⟨(1 : ℝ), (0, 0), 1, ⟨100, 150, 200, 51⟩⟩ ((0 * 2 + 1) * 4 + 1) =
        blend_channel (reset_frame 2 2 ((0 * 2 + 1) * 4 + 1)) 150 51 ∧
      composite_splat 2 2 (reset_frame 2 2)
          ⟨(1 : ℝ), (0, 0), 1, ⟨100, 150, 200, 51⟩⟩ ((0 * 2 + 1) * 4 + 2) =
        blend_channel (reset_frame 2 2 ((0 * 2 + 1) * 4 + 2)) 200 51 ∧
      composite_splat 2 2 (reset_frame 2 2)
          ⟨(1 : ℝ), (0, 0), 1, ⟨100, 150, 200, 51⟩⟩ ((0 * 2 + 1) * 4 + 3) =
        reset_frame 2 2 ((0 * 2 + 1) * 4 + 3) :=
  c4_alpha_blend_per_pixel 2 2 (reset_frame 2 2)
    ⟨(1 : ℝ), (0, 0), 1, ⟨100, 150, 200, 51⟩⟩ ⟨1, 0⟩ (by decide) (by decide) (by decide)
    (by decide) (by decide) (by decide) (by decide)

/-- A permutation of a two-element list is one of its two arrangements. -/
theorem perm_pair_cases (A B : PreparedSplat) :
    ∀ l : List PreparedSplat, l.Perm [A, B] → l = [A, B] ∨ l = [B, A] := by
  intro l h
  have hlen : l.length = 2 := h.length_eq
  match l, hlen with
  | [x, y], _ =>
    have hx : x ∈ [A, B] := h.subset (List.mem_cons_self x [y])
    rcases List.mem_cons.mp hx with hxa | hxb
    · subst hxa
      have h2 : [y].Perm [B] := h.cons_inv
      left
      rw [List.perm_singleton.mp h2]
    · have hxb2 : x = B := by simpa using hxb
      subst hxb2
      have hswap : List.Perm [x, y] [x, A] := h.trans (List.Perm.swap x A [])
      have h2 : [y].Perm [A] := hswap.cons_inv
      right
      rw [List.perm_singleton.mp h2]

/-- C5: when the surviving splats are composited in descending-distance
order (the depth sort's contract), the frame produced for two overlapping
splats A (nearer) and B (farther) equals compositing B first and then A over
the background — for any input arrangement of A and B (any permutation the
unstable sort may receive or produce ties are excluded by the strict
distance hypothesis). -/
theorem c5_back_to_front_two_splats (w h : ℕ) (A B : PreparedSplat)
    (sorted : List PreparedSplat)
    (hAB : A.distance_from_camera < B.distance_from_camera)
    (hperm : sorted.Perm [A, B]) (hsorted : sorted_back_to_front sorted) :
    composite_all w h (reset_frame w h) sorted =
      composite_splat w h (composite_splat w h (reset_frame w h) B) A := by
  rcases perm_pair_cases A B sorted hperm with rfl | rfl
  · exfalso
    have := (List.pairwise_cons.mp hsorted).1 B (List.mem_cons_self B [])
    exact absurd this (not_le.mpr hAB)
  · rfl

/-- C5 witness: two concrete splats at distances 1 (near) and 2 (far); the
only descending arrangement of them is far-then-near. -/
theorem c5_witness :
    composite_all 2 2 (reset_frame 2 2)
        [⟨(2 : ℝ), (0, 0), 1, ⟨10, 20, 30, 255⟩⟩, ⟨(1 : ℝ), (1, 1), 1, ⟨1, 2, 3, 128⟩⟩] =
      composite_splat 2 2
        (composite_splat 2 2 (reset_frame 2 2) ⟨(2 : ℝ), (0, 0), 1, ⟨10, 20, 30, 255⟩⟩)
        ⟨(1 : ℝ), (1, 1), 1, ⟨1, 2, 3, 128⟩⟩ :=
  c5_back_to_front_two_splats 2 2 ⟨(1 : ℝ), (1, 1), 1, ⟨1, 2, 3, 128⟩⟩
    ⟨(2 : ℝ), (0, 0), 1, ⟨10, 20, 30, 255⟩⟩ _ (by norm_num)
    (List.Perm.swap _ _ _)
    (by
      constructor
      · intro b hb
        rcases List.mem_singleton.mp hb with rfl
        norm_num
      · simp [sorted_back_to_front])

/-!
## Claim theorems: distance metric and billboard size
-/

/-- C6: the distance used as the depth-sort key and for billboard sizing is
the Euclidean norm of the clip-space `(x,y,z)` triple — not the raw `z`
component, as witnessed at `(3,4,12,1)` where the norm is 13 ≠ 12 — and the
billboard size is `round(2 * scaling_factor / distance)`; the minimum of 1 is
applied by the billboard window construction, which treats size 0 exactly as
size 1. -/
theorem c6_distance_and_billboard_size :
    (∀ v : Vec4Q,
        get_splat_distance_from_camera v =
          Real.sqrt (((v.x : ℝ)) ^ 2 + ((v.y : ℝ)) ^ 2 + ((v.z : ℝ)) ^ 2)) ∧
      get_splat_distance_from_camera ⟨3, 4, 12, 1⟩ ≠ (((⟨3, 4, 12, 1⟩ : Vec4Q).z : ℚ) : ℝ) ∧
      (∀ (scaling_factor : ℚ) (v : Vec4Q),
        billboard_size_of_splat scaling_factor v =
          f32_round_real_as_u32
            (2 * (scaling_factor : ℝ) / get_splat_distance_from_camera v)) ∧
      (∀ (viewport : ℕ × ℕ) (center : ℕ × ℕ) (size : ℕ),
        from_center_and_size viewport center size =
          from_center_and_size viewport center (max size 1)) ∧
      ∀ (joint_matrix : Mat4Q) (scaling_factor : ℚ) (render_width render_height : ℕ)
        (s : SplatQ) (ps : PreparedSplat),
        prepare_splat joint_matrix scaling_factor render_width render_height s = some ps →
        ps.distance_from_camera =
            get_splat_distance_from_camera
              (mat4_mul_vec joint_matrix (homogeneous_position s.position)) ∧
          ps.billboard_size_in_pixels =
            billboard_size_of_splat scaling_factor
              (mat4_mul_vec joint_matrix (homogeneous_position s.position)) := by
  refine ⟨fun v => rfl, ?_, fun sf v => rfl, ?_, ?_⟩
  · have h169 : (((3 : ℚ) : ℝ)) ^ 2 + (((4 : ℚ) : ℝ)) ^ 2 + (((12 : ℚ) : ℝ)) ^ 2 = 169 := by
      norm_num
    show Real.sqrt _ ≠ _
    rw [h169, show (169 : ℝ) = 13 ^ 2 by norm_num, Real.sqrt_sq (by norm_num)]
    norm_num
  · intro viewport center size
    have hmax : max (max size 1) 1 = max size 1 := by omega
    simp only [from_center_and_size, hmax]
  · intro joint_matrix scaling_factor render_width render_height s ps hps
    cases hcase : get_pixel_coordinates_from_projected_coordinates
        (mat4_mul_vec joint_matrix (homogeneous_position s.position)) render_width
        render_height with
    | none => rw [prepare_splat] at hps; rw [hcase] at hps; simp at hps
    | some center =>
      rw [prepare_splat] at hps
      rw [hcase] at hps
      simp only [Option.map_some'] at hps
      obtain rfl := Option.some.inj hps
      exact ⟨rfl, rfl⟩

/-- The identity joint matrix used by the C6 witness. -/
def c6_identity_matrix : Mat4Q :=
  ⟨1, 0, 0, 0, 0, 1, 0, 0, 0, 0, 1, 0, 0, 0, 0, 1⟩

/-- The splat used by the C6 witness: world position `(0, 0, 1)`. -/
def c6_splat : SplatQ :=
  { position := (0, 0, 1), scale := (1, 1, 1), color := ⟨255, 0, 0, 255⟩,
    rotation := (0, 0, 0, 0) }

/-- C6 witness: for the concrete splat at clip position `(0,0,1,1)` in a 3×3
viewport, the prepared splat's stored distance and billboard size are the
norm respectively the rounded-ratio formula of the theorem. -/
theorem c6_witness :
    (prepare_splat c6_identity_matrix 2 3 3 c6_splat).map PreparedSplat.distance_from_camera =
        some
          (get_splat_distance_from_camera
            (mat4_mul_vec c6_identity_matrix (homogeneous_position c6_splat.position))) ∧
      (prepare_splat c6_identity_matrix 2 3 3 c6_splat).map
          PreparedSplat.billboard_size_in_pixels =
        some
          (billboard_size_of_splat 2
            (mat4_mul_vec c6_identity_matrix (homogeneous_position c6_splat.position))) := by
  have hclip :
      mat4_mul_vec c6_identity_matrix (homogeneous_position c6_splat.position) =
        ⟨0, 0, 1, 1⟩ := by
    simp only [mat4_mul_vec, c6_identity_matrix, homogeneous_position, c6_splat, Vec4Q.mk.injEq]
    norm_num
  have hpix :
      get_pixel_coordinates_from_projected_coordinates (⟨0, 0, 1, 1⟩ : Vec4Q) 3 3 =
        some (f32_round_as_u32 ((0 * (1 / 1) * (1 / (1 * (1 / 1))) + 1) / 2 * ((3 : ℚ) - 1)),
          f32_round_as_u32 ((0 * (1 / 1) * (1 / (1 * (1 / 1))) + 1) / 2 * ((3 : ℚ) - 1))) := by
    rw [get_pixel_coordinates_from_projected_coordinates]
    norm_num
  have hps :
      prepare_splat c6_identity_matrix 2 3 3 c6_splat =
        some
          { distance_from_camera := get_splat_distance_from_camera (⟨0, 0, 1, 1⟩ : Vec4Q)
            center_pixel_in_viewport :=
              (f32_round_as_u32 ((0 * (1 / 1) * (1 / (1 * (1 / 1))) + 1) / 2 * ((3 : ℚ) - 1)),
                f32_round_as_u32 ((0 * (1 / 1) * (1 / (1 * (1 / 1))) + 1) / 2 * ((3 : ℚ) - 1)))
            billboard_size_in_pixels := billboard_size_of_splat 2 (⟨0, 0, 1, 1⟩ : Vec4Q)
            color := c6_splat.color } := by
    rw [prepare_splat]
    rw [hclip, hpix]
    rfl
  have hfields := c6_distance_and_billboard_size.2.2.2.2 c6_identity_matrix 2 3 3 c6_splat
    _ hps
  rw [hps]
  simp only [Option.map_some']
  exact ⟨congrArg some hfields.1, congrArg some hfields.2⟩

/-!
## Camera basis lemmas
-/

/-- Scalars pull out of the left argument of the dot product. -/
theorem dot3_smul_left (c : ℝ) (v u : Vec3R) : dot3 (smul3 c v) u = c * dot3 v u := by
  simp only [dot3, smul3]
  ring

/-- A cross product is orthogonal to its first factor. -/
theorem dot3_cross_self_left (a b : Vec3R) : dot3 (cross3 a b) a = 0 := by
  simp only [dot3, cross3]
  ring

/-- A cross product is orthogonal to its second factor. -/
theorem dot3_cross_self_right (a b : Vec3R) : dot3 (cross3 a b) b = 0 := by
  simp only [dot3, cross3]
  ring

/-- The dot square is nonnegative. -/
theorem dot3_self_nonneg (v : Vec3R) : 0 ≤ dot3 v v :=
  add_nonneg (add_nonneg (mul_self_nonneg _) (mul_self_nonneg _)) (mul_self_nonneg _)

/-- A vector with nonzero dot square has positive norm. -/
theorem norm3_pos (v : Vec3R) (h : dot3 v v ≠ 0) : 0 < norm3 v :=
  Real.sqrt_pos.mpr (lt_of_le_of_ne (dot3_self_nonneg v) (Ne.symm h))

/-- Normalizing projects onto the left dot-product argument. -/
theorem dot3_normalize_left (v u : Vec3R) :
    dot3 (normalize3 v) u = (norm3 v)⁻¹ * dot3 v u :=
  dot3_smul_left _ v u

/-- A nondegenerate vector normalizes to a unit vector. -/
theorem norm3_normalize (v : Vec3R) (h : dot3 v v ≠ 0) : norm3 (normalize3 v) = 1 := by
  have hpos : 0 < norm3 v := norm3_pos v h
  have hdot : dot3 (normalize3 v) (normalize3 v) = ((norm3 v)⁻¹) ^ 2 * dot3 v v := by
    simp only [normalize3, dot3, smul3]
    ring
  rw [norm3, hdot, Real.sqrt_mul (sq_nonneg _), Real.sqrt_sq_eq_abs, abs_inv,
    abs_of_pos hpos]
  exact inv_mul_cancel₀ (ne_of_gt hpos)

/-- Evaluation rule for `normalize3` at a vector of known norm. -/
theorem normalize3_eval (v : Vec3R) (n : ℝ) (hn : 0 < n) (hd : dot3 v v = n ^ 2) :
    normalize3 v = smul3 n⁻¹ v := by
  rw [normalize3, norm3, hd, Real.sqrt_sq hn.le]

/-!
## Claim theorems: camera basis
-/

/-- C8 counterexample: start the renderer at position `(0,0,0)`, look target
`(0,3,4)`, user up hint `(0,1,0)`; the constructor stores the derived up
vector `(0, 4/5, -3/5)`.  After the camera moves to `(-1,3,4)` (reachable by
0.1-sized intent steps), the next render pass derives its side vector from
the STORED up vector — yielding `(0, 3/5, 4/5)` — and not from the
user-supplied up hint, which would yield `(0,0,1)` as the claim states. -/
theorem c8_counterexample :
    (render_camera_basis ((-1 : ℝ), (3 : ℝ), (4 : ℝ)) ((0 : ℝ), (3 : ℝ), (4 : ℝ))
          (new_camera_basis ((0 : ℝ), (0 : ℝ), (0 : ℝ)) ((0 : ℝ), (3 : ℝ), (4 : ℝ))
              ((0 : ℝ), (1 : ℝ), (0 : ℝ))).up_vector).side_vector ≠
      normalize3
        (cross3
          (normalize3 (sub3 ((0 : ℝ), (3 : ℝ), (4 : ℝ)) ((-1 : ℝ), (3 : ℝ), (4 : ℝ))))
          ((0 : ℝ), (1 : ℝ), (0 : ℝ))) := by
  have hsub0 : sub3 ((0 : ℝ), (3 : ℝ), (4 : ℝ)) ((0 : ℝ), (0 : ℝ), (0 : ℝ)) =
      ((0 : ℝ), (3 : ℝ), (4 : ℝ)) := by
    simp [sub3]
  have hhint : normalize3 ((0 : ℝ), (1 : ℝ), (0 : ℝ)) = ((0 : ℝ), (1 : ℝ), (0 : ℝ)) := by
    rw [normalize3_eval _ 1 one_pos (by norm_num [dot3])]
    simp [smul3]
  have hf0 : normalize3 ((0 : ℝ), (3 : ℝ), (4 : ℝ)) = ((0 : ℝ), (3 / 5 : ℝ), (4 / 5 : ℝ)) := by
    rw [normalize3_eval _ 5 (by norm_num) (by norm_num [dot3])]
    simp only [smul3, Prod.mk.injEq]
    norm_num
  have hcross0 : cross3 ((0 : ℝ), (3 / 5 : ℝ), (4 / 5 : ℝ)) ((0 : ℝ), (1 : ℝ), (0 : ℝ)) =
      ((-(4 / 5) : ℝ), (0 : ℝ), (0 : ℝ)) := by
    simp only [cross3, Prod.mk.injEq]
    norm_num
  have hside0 : normalize3 ((-(4 / 5) : ℝ), (0 : ℝ), (0 : ℝ)) =
      ((-1 : ℝ), (0 : ℝ), (0 : ℝ)) := by
    rw [normalize3_eval _ (4 / 5) (by norm_num) (by norm_num [dot3])]
    simp only [smul3, Prod.mk.injEq]
    norm_num
  have hcross1 : cross3 ((-1 : ℝ), (0 : ℝ), (0 : ℝ)) ((0 : ℝ), (3 / 5 : ℝ), (4 / 5 : ℝ)) =
      ((0 : ℝ), (4 / 5 : ℝ), (-(3 / 5) : ℝ)) := by
    simp only [cross3, Prod.mk.injEq]
    norm_num
  have hup0 : normalize3 ((0 : ℝ), (4 / 5 : ℝ), (-(3 / 5) : ℝ)) =
      ((0 : ℝ), (4 / 5 : ℝ), (-(3 / 5) : ℝ)) := by
    rw [normalize3_eval _ 1 one_pos (by norm_num [dot3])]
    simp [smul3]
  have hbasis0 :
      (new_camera_basis ((0 : ℝ), (0 : ℝ), (0 : ℝ)) ((0 : ℝ), (3 : ℝ), (4 : ℝ))
          ((0 : ℝ), (1 : ℝ), (0 : ℝ))).up_vector =
        ((0 : ℝ), (4 / 5 : ℝ), (-(3 / 5) : ℝ)) := by
    rw [new_camera_basis, hhint]
    simp only [derive_camera_basis]
    rw [hsub0, hf0, hcross0, hside0, hcross1, hup0]
  have hsub1 : sub3 ((0 : ℝ), (3 : ℝ), (4 : ℝ)) ((-1 : ℝ), (3 : ℝ), (4 : ℝ)) =
      ((1 : ℝ), (0 : ℝ), (0 : ℝ)) := by
    simp only [sub3, Prod.mk.injEq]
    norm_num
  have hf1 : normalize3 ((1 : ℝ), (0 : ℝ), (0 : ℝ)) = ((1 : ℝ), (0 : ℝ), (0 : ℝ)) := by
    rw [normalize3_eval _ 1 one_pos (by norm_num [dot3])]
    simp [smul3]
  have hcross2 : cross3 ((1 : ℝ), (0 : ℝ), (0 : ℝ)) ((0 : ℝ), (4 / 5 : ℝ), (-(3 / 5) : ℝ)) =
      ((0 : ℝ), (3 / 5 : ℝ), (4 / 5 : ℝ)) := by
    simp only [cross3, Prod.mk.injEq]
    norm_num
  have hside1 : normalize3 ((0 : ℝ), (3 / 5 : ℝ), (4 / 5 : ℝ)) =
      ((0 : ℝ), (3 / 5 : ℝ), (4 / 5 : ℝ)) := by
    rw [normalize3_eval _ 1 one_pos (by norm_num [dot3])]
    simp [smul3]
  have hcrossr : cross3 ((1 : ℝ), (0 : ℝ), (0 : ℝ)) ((0 : ℝ), (1 : ℝ), (0 : ℝ)) =
      ((0 : ℝ), (0 : ℝ), (1 : ℝ)) := by
    simp only [cross3, Prod.mk.injEq]
    norm_num
  have hrhs : normalize3 ((0 : ℝ), (0 : ℝ), (1 : ℝ)) = ((0 : ℝ), (0 : ℝ), (1 : ℝ)) := by
    rw [normalize3_eval _ 1 one_pos (by norm_num [dot3])]
    simp [smul3]
  rw [hbasis0]
  simp only [render_camera_basis, derive_camera_basis]
  rw [hsub1, hf1, hcross2, hside1, hcrossr, hrhs]
  intro hcontra
  have hy := congrArg (fun v : Vec3R => v.2.1) hcontra
  norm_num at hy

/-- C8 (amended): on every render pass the camera basis is recomputed from
the current camera state as `forward = normalize(look_target - position)`,
`side = normalize(forward × up_stored)` and `up = normalize(side × forward)`,
where `up_stored` is the up vector stored by the PREVIOUS derivation (the
constructor initializes it from the user-supplied up hint; the hint itself is
not retained); whenever the involved vectors are nondegenerate the three
derived vectors are mutually orthogonal unit vectors. -/
theorem c8_camera_basis_orthonormal_from_stored_up (position look_target stored_up : Vec3R)
    (h1 : dot3 (sub3 look_target position) (sub3 look_target position) ≠ 0)
    (h2 : dot3 (cross3 (normalize3 (sub3 look_target position)) stored_up)
        (cross3 (normalize3 (sub3 look_target position)) stored_up) ≠ 0)
    (h3 : dot3
        (cross3 (normalize3 (cross3 (normalize3 (sub3 look_target position)) stored_up))
          (normalize3 (sub3 look_target position)))
        (cross3 (normalize3 (cross3 (normalize3 (sub3 look_target position)) stored_up))
          (normalize3 (sub3 look_target position))) ≠ 0) :
    (render_camera_basis position look_target stored_up).forward_vector =
        normalize3 (sub3 look_target position) ∧
      (render_camera_basis position look_target stored_up).side_vector =
        normalize3 (cross3 (normalize3 (sub3 look_target position)) stored_up) ∧
      (render_camera_basis position look_target stored_up).up_vector =
        normalize3
          (cross3 (normalize3 (cross3 (normalize3 (sub3 look_target position)) stored_up))
            (normalize3 (sub3 look_target position))) ∧
      dot3 (render_camera_basis position look_target stored_up).side_vector
          (render_camera_basis position look_target stored_up).forward_vector = 0 ∧
      dot3 (render_camera_basis position look_target stored_up).up_vector
          (render_camera_basis position look_target stored_up).side_vector = 0 ∧
      dot3 (render_camera_basis position look_target stored_up).up_vector
          (render_camera_basis position look_target stored_up).forward_vector = 0 ∧
      norm3 (render_camera_basis position look_target stored_up).forward_vector = 1 ∧
      norm3 (render_camera_basis position look_target stored_up).side_vector = 1 ∧
      norm3 (render_camera_basis position look_target stored_up).up_vector = 1 := by
  refine ⟨rfl, rfl, rfl, ?_, ?_, ?_, ?_, ?_, ?_⟩
  · show dot3 (normalize3 (cross3 (normalize3 (sub3 look_target position)) stored_up))
      (normalize3 (sub3 look_target position)) = 0
    rw [dot3_normalize_left, dot3_cross_self_left, mul_zero]
  · show dot3
      (normalize3
        (cross3 (normalize3 (cross3 (normalize3 (sub3 look_target position)) stored_up))
          (normalize3 (sub3 look_target position))))
      (normalize3 (cross3 (normalize3 (sub3 look_target position)) stored_up)) = 0
    rw [dot3_normalize_left, dot3_cross_self_left, mul_zero]
  · show dot3
      (normalize3
        (cross3 (normalize3 (cross3 (normalize3 (sub3 look_target position)) stored_up))
          (normalize3 (sub3 look_target position))))
      (normalize3 (sub3 look_target position)) = 0
    rw [dot3_normalize_left, dot3_cross_self_right, mul_zero]
  · exact norm3_normalize _ h1
  · exact norm3_normalize _ h2
  · exact norm3_normalize _ h3

/-- C8 witness: at position `(0,0,0)`, look target `(0,3,4)` and stored up
vector `(0,1,0)`, all nondegeneracy hypotheses hold and the derived basis is
orthonormal. -/
theorem c8_witness :
    dot3 (render_camera_basis ((0 : ℝ), (0 : ℝ), (0 : ℝ)) ((0 : ℝ), (3 : ℝ), (4 : ℝ))
          ((0 : ℝ), (1 : ℝ), (0 : ℝ))).side_vector
        (render_camera_basis ((0 : ℝ), (0 : ℝ), (0 : ℝ)) ((0 : ℝ), (3 : ℝ), (4 : ℝ))
          ((0 : ℝ), (1 : ℝ), (0 : ℝ))).forward_vector = 0 ∧
      dot3 (render_camera_basis ((0 : ℝ), (0 : ℝ), (0 : ℝ)) ((0 : ℝ), (3 : ℝ), (4 : ℝ))
          ((0 : ℝ), (1 : ℝ), (0 : ℝ))).up_vector
        (render_camera_basis ((0 : ℝ), (0 : ℝ), (0 : ℝ)) ((0 : ℝ), (3 : ℝ), (4 : ℝ))
          ((0 : ℝ), (1 : ℝ), (0 : ℝ))).side_vector = 0 ∧
      dot3 (render_camera_basis ((0 : ℝ), (0 : ℝ), (0 : ℝ)) ((0 : ℝ), (3 : ℝ), (4 : ℝ))
          ((0 : ℝ), (1 : ℝ), (0 : ℝ))).up_vector
        (render_camera_basis ((0 : ℝ), (0 : ℝ), (0 : ℝ)) ((0 : ℝ), (3 : ℝ), (4 : ℝ))
          ((0 : ℝ), (1 : ℝ), (0 : ℝ))).forward_vector = 0 ∧
      norm3 (render_camera_basis ((0 : ℝ), (0 : ℝ), (0 : ℝ)) ((0 : ℝ), (3 : ℝ), (4 : ℝ))
          ((0 : ℝ), (1 : ℝ), (0 : ℝ))).forward_vector = 1 ∧
      norm3 (render_camera_basis ((0 : ℝ), (0 : ℝ), (0 : ℝ)) ((0 : ℝ), (3 : ℝ), (4 : ℝ))
          ((0 : ℝ), (1 : ℝ), (0 : ℝ))).side_vector = 1 ∧
      norm3 (render_camera_basis ((0 : ℝ), (0 : ℝ), (0 : ℝ)) ((0 : ℝ), (3 : ℝ), (4 : ℝ))
          ((0 : ℝ), (1 : ℝ), (0 : ℝ))).up_vector = 1 := by
  have hsub0 : sub3 ((0 : ℝ), (3 : ℝ), (4 : ℝ)) ((0 : ℝ), (0 : ℝ), (0 : ℝ)) =
      ((0 : ℝ), (3 : ℝ), (4 : ℝ)) := by
    simp [sub3]
  have hf0 : normalize3 ((0 : ℝ), (3 : ℝ), (4 : ℝ)) = ((0 : ℝ), (3 / 5 : ℝ), (4 / 5 : ℝ)) := by
    rw [normalize3_eval _ 5 (by norm_num) (by norm_num [dot3])]
    simp only [smul3, Prod.mk.injEq]
    norm_num
  have hcross0 : cross3 ((0 : ℝ), (3 / 5 : ℝ), (4 / 5 : ℝ)) ((0 : ℝ), (1 : ℝ), (0 : ℝ)) =
      ((-(4 / 5) : ℝ), (0 : ℝ), (0 : ℝ)) := by
    simp only [cross3, Prod.mk.injEq]
    norm_num
  have hside0 : normalize3 ((-(4 / 5) : ℝ), (0 : ℝ), (0 : ℝ)) =
      ((-1 : ℝ), (0 : ℝ), (0 : ℝ)) := by
    rw [normalize3_eval _ (4 / 5) (by norm_num) (by norm_num [dot3])]
    simp only [smul3, Prod.mk.injEq]
    norm_num
  have hcross1 : cross3 ((-1 : ℝ), (0 : ℝ), (0 : ℝ)) ((0 : ℝ), (3 / 5 : ℝ), (4 / 5 : ℝ)) =
      ((0 : ℝ), (4 / 5 : ℝ), (-(3 / 5) : ℝ)) := by
    simp only [cross3, Prod.mk.injEq]
    norm_num
  have h1 : dot3 (sub3 ((0 : ℝ), (3 : ℝ), (4 : ℝ)) ((0 : ℝ), (0 : ℝ), (0 : ℝ)))
      (sub3 ((0 : ℝ), (3 : ℝ), (4 : ℝ)) ((0 : ℝ), (0 : ℝ), (0 : ℝ))) ≠ 0 := by
    rw [hsub0]
    norm_num [dot3]
  have h2 : dot3
      (cross3 (normalize3 (sub3 ((0 : ℝ), (3 : ℝ), (4 : ℝ)) ((0 : ℝ), (0 : ℝ), (0 : ℝ))))
        ((0 : ℝ), (1 : ℝ), (0 : ℝ)))
      (cross3 (normalize3 (sub3 ((0 : ℝ), (3 : ℝ), (4 : ℝ)) ((0 : ℝ), (0 : ℝ), (0 : ℝ))))
        ((0 : ℝ), (1 : ℝ), (0 : ℝ))) ≠ 0 := by
    rw [hsub0, hf0, hcross0]
    norm_num [dot3]
  have h3 : dot3
      (cross3
        (normalize3
          (cross3
            (normalize3 (sub3 ((0 : ℝ), (3 : ℝ), (4 : ℝ)) ((0 : ℝ), (0 : ℝ), (0 : ℝ))))
            ((0 : ℝ), (1 : ℝ), (0 : ℝ))))
        (normalize3 (sub3 ((0 : ℝ), (3 : ℝ), (4 : ℝ)) ((0 : ℝ), (0 : ℝ), (0 : ℝ)))))
      (cross3
        (normalize3
          (cross3
            (normalize3 (sub3 ((0 : ℝ), (3 : ℝ), (4 : ℝ)) ((0 : ℝ), (0 : ℝ), (0 : ℝ))))
            ((0 : ℝ), (1 : ℝ), (0 : ℝ))))
        (normalize3 (sub3 ((0 : ℝ), (3 : ℝ), (4 : ℝ)) ((0 : ℝ), (0 : ℝ), (0 : ℝ))))) ≠ 0 := by
    rw [hsub0, hf0, hcross0, hside0, hcross1]
    norm_num [dot3]
  obtain ⟨-, -, -, o1, o2, o3, n1, n2, n3⟩ :=
    c8_camera_basis_orthonormal_from_stored_up ((0 : ℝ), (0 : ℝ), (0 : ℝ))
      ((0 : ℝ), (3 : ℝ), (4 : ℝ)) ((0 : ℝ), (1 : ℝ), (0 : ℝ)) h1 h2 h3
  exact ⟨o1, o2, o3, n1, n2, n3⟩

/-!
## Claim theorems: render state machine and empty-scene recompute
-/

/-- C9 counterexample: it is NOT the case that the only operation that moves
the render state from Stale (`pending_rerender = true`) to Fresh is the
`draw` read path — `main.rs` invokes `render_in_place` directly right after
constructing the renderer, and that operation also clears the flag. -/
theorem c9_counterexample :
    ¬∀ (recompute : RCState → FrameBuffer) (s : RCState) (op : RendererOp),
        s.pending_rerender = true →
        (apply_renderer_op recompute op s).pending_rerender = false →
        op = RendererOp.read_draw := by
  intro hclaim
  have hop := hclaim (fun _ => fun _ => 0)
    ⟨true, ((0 : ℝ), (0 : ℝ), (0 : ℝ)), ((1 : ℝ), (0 : ℝ), (0 : ℝ)),
      ((1 : ℝ), (0 : ℝ), (0 : ℝ)), ((0 : ℝ), (0 : ℝ), (1 : ℝ)), ((0 : ℝ), (1 : ℝ), (0 : ℝ)),
      fun _ => 0⟩
    RendererOp.direct_render rfl rfl
  exact absurd hop (by decide)

/-- C9 (amended): the render state is two-valued (Stale iff
`pending_rerender`); a read that finds the state Stale performs exactly one
synchronous recompute, stores the fresh frame, clears the flag and serves
that frame; a read that finds it Fresh serves the cached frame with zero
recomputes; after any read the state is Fresh and an immediately following
read recomputes nothing; and the Stale-to-Fresh transition happens only
through `render_in_place` — either inside the read path or through the
direct startup call in `main` — never through a camera intent. -/
theorem c9_lazy_recompute_behavior (recompute : RCState → FrameBuffer) (s : RCState) :
    (s.pending_rerender = true →
        draw_frame recompute s =
          (render_in_place_state recompute s, (render_in_place_state recompute s).frame, 1)) ∧
      (s.pending_rerender = false → draw_frame recompute s = (s, s.frame, 0)) ∧
      (draw_frame recompute s).1.pending_rerender = false ∧
      draw_frame recompute ((draw_frame recompute s).1) =
        ((draw_frame recompute s).1, (draw_frame recompute s).1.frame, 0) ∧
      ∀ op : RendererOp,
        (apply_renderer_op recompute op s).pending_rerender = false →
        op = RendererOp.read_draw ∨ op = RendererOp.direct_render := by
  have hfresh : (draw_frame recompute s).1.pending_rerender = false := by
    cases hps : s.pending_rerender with
    | true => simp [draw_frame, hps, render_in_place_state]
    | false => simp [draw_frame, hps]
  refine ⟨?_, ?_, hfresh, ?_, ?_⟩
  · intro hp
    rw [draw_frame, if_pos hp]
  · intro hp
    rw [draw_frame, if_neg (by simp [hp])]
  · rw [draw_frame, if_neg (by simp [hfresh])]
  · intro op hop
    cases op with
    | move_x_neg => exact absurd hop (by simp [apply_renderer_op])
    | move_x_pos => exact absurd hop (by simp [apply_renderer_op])
    | move_y_neg => exact absurd hop (by simp [apply_renderer_op])
    | move_y_pos => exact absurd hop (by simp [apply_renderer_op])
    | move_z_neg => exact absurd hop (by simp [apply_renderer_op])
    | move_z_pos => exact absurd hop (by simp [apply_renderer_op])
    | zoom_out => exact absurd hop (by simp [apply_renderer_op])
    | zoom_in => exact absurd hop (by simp [apply_renderer_op])
    | read_draw => exact Or.inl rfl
    | direct_render => exact Or.inr rfl

/-- The frame recomputation stub used by the C9 witness. -/
def c9_recompute : RCState → FrameBuffer := fun _ => fun _ => 0

/-- A concrete Stale renderer state used by the C9 witness. -/
noncomputable def c9_stale_state : RCState :=
  { pending_rerender := true
    camera_position := ((0 : ℝ), (0 : ℝ), (0 : ℝ))
    camera_look_target := ((1 : ℝ), (0 : ℝ), (0 : ℝ))
    forward_vector := ((1 : ℝ), (0 : ℝ), (0 : ℝ))
    side_vector := ((0 : ℝ), (0 : ℝ), (1 : ℝ))
    up_vector := ((0 : ℝ), (1 : ℝ), (0 : ℝ))
    frame := fun _ => 0 }

/-- C9 witness: at the concrete Stale state, a read performs one recompute
and serves the fresh frame, and the immediately following read performs
zero recomputes. -/
theorem c9_witness :
    draw_frame c9_recompute c9_stale_state =
        (render_in_place_state c9_recompute c9_stale_state,
          (render_in_place_state c9_recompute c9_stale_state).frame, 1) ∧
      draw_frame c9_recompute ((draw_frame c9_recompute c9_stale_state).1) =
        ((draw_frame c9_recompute c9_stale_state).1,
          (draw_frame c9_recompute c9_stale_state).1.frame, 0) :=
  ⟨(c9_lazy_recompute_behavior c9_recompute c9_stale_state).1 rfl,
    (c9_lazy_recompute_behavior c9_recompute c9_stale_state).2.2.2.1⟩

/-- C10 counterexample: with trace-level logging disabled — the `trace!`
macro evaluates its arguments, including the `first().unwrap()`, only when
the trace event is enabled — a recompute with zero surviving splats does NOT
panic: it produces the background-only frame. -/
theorem c10_counterexample :
    render_outcome_with_sorted false [] 2 2 ≠ RenderOutcome.panicked ∧
      render_outcome_with_sorted false [] 2 2 = RenderOutcome.frame (reset_frame 2 2) := by
  constructor
  · intro hcontra
    rw [show render_outcome_with_sorted false [] 2 2 =
        RenderOutcome.frame (reset_frame 2 2) from rfl] at hcontra
    exact RenderOutcome.noConfusion hcontra
  · rfl

/-- C10 (amended): when trace-level logging is enabled, a recompute in which
no splat survives projection and culling (in particular an empty scene)
panics on the `first().unwrap()` of the empty sorted list inside the trace
statement, instead of producing a background-only frame. -/
theorem c10_empty_survivors_panic_when_traced (joint_matrix : Mat4Q) (scaling_factor : ℚ)
    (render_width render_height : ℕ) (scene : List SplatQ) (sorted : List PreparedSplat)
    (hprep :
      prepared_list joint_matrix scaling_factor render_width render_height scene = [])
    (hperm : sorted.Perm
      (prepared_list joint_matrix scaling_factor render_width render_height scene)) :
    render_outcome_with_sorted true sorted render_width render_height =
      RenderOutcome.panicked := by
  rw [hprep] at hperm
  have hnil : sorted = [] := List.Perm.eq_nil hperm
  subst hnil
  rfl

/-- C10 witness: the empty scene yields an empty prepared list, and the
trace-enabled recompute panics. -/
theorem c10_witness :
    render_outcome_with_sorted true [] 1 1 = RenderOutcome.panicked :=
  c10_empty_survivors_panic_when_traced ⟨1, 0, 0, 0, 0, 1, 0, 0, 0, 0, 1, 0, 0, 0, 0, 1⟩ 2
    1 1 [] [] rfl (List.Perm.refl [])

end NRG
